import Mathlib

/-!
Verification development for the CSV anomaly-detection front end.

The program's core logic (CSV normalization in `App.tsx`'s
`handleFileSelect`, request building and response handling in
`geminiService.ts`, reconciliation in `App`'s render) is shallowly
embedded here.  JavaScript strings are modelled as `List Char`,
JavaScript numbers as `ℚ` (exact rationals; IEEE rounding and the
infinities are outside the model), and fallible steps as `Option` /
`Except`.  The external pieces (PapaParse, `JSON.parse`, the network
call) are modelled at their interfaces: PapaParse delivers a list of
header-keyed rows, the network call's outcome is an explicit input,
and `JSON.parse` is modelled by an executable JSON parser below.
-/

/-- JavaScript strings are modelled as lists of characters. -/
abbrev Str := List Char

/-- Whitespace test covering the characters relevant to this program
(space, tab, newline, carriage return); a restriction of JavaScript's
whitespace class to the characters the code paths here produce. -/
def isWS (c : Char) : Bool :=
  c == ' ' || c == '\t' || c == '\n' || c == '\r'

/-- Drop leading whitespace (the left half of `String.prototype.trim`). -/
def trimL (l : Str) : Str := l.dropWhile isWS

/-- Drop trailing whitespace (the right half of `String.prototype.trim`). -/
def trimR (l : Str) : Str := (l.reverse.dropWhile isWS).reverse

/-- `String.prototype.trim`: drop leading and trailing whitespace. -/
def trimS (l : Str) : Str := trimR (trimL l)

/-- `String.prototype.startsWith` on the character-list model
(first argument is the pattern). -/
def startsWithL : Str → Str → Bool
  | [], _ => true
  | _ :: _, [] => false
  | p :: ps, c :: cs => p == c && startsWithL ps cs

/-- `String.prototype.endsWith` on the character-list model. -/
def endsWithL (pat l : Str) : Bool := startsWithL pat.reverse l.reverse

/-- Remove the last `n` characters (used for stripping a trailing fence). -/
def dropRightL (n : Nat) (l : Str) : Str := (l.reverse.drop n).reverse

/-- `String.prototype.includes`: `pat` occurs contiguously in the string. -/
def occursIn (pat : Str) : Str → Bool
  | [] => startsWithL pat []
  | c :: cs => startsWithL pat (c :: cs) || occursIn pat cs

/-- Value of a digit string read in base 10. -/
def digitsToNat (l : Str) : Nat :=
  l.foldl (fun a c => a * 10 + (c.toNat - 48)) 0

/-- `parseFloat` from JavaScript, modelled exactly over `ℚ`:
skip leading whitespace, an optional sign, then the longest prefix of
the forms `digits`, `digits.digits`, `.digits`, optionally followed by
a well-formed exponent part; trailing garbage is ignored; `none` plays
the role of `NaN`.  The `Infinity` literal is not modelled. -/
def parseFloat (s : Str) : Option ℚ :=
  let s₀ := s.dropWhile isWS
  let sgnStrip : Bool × Str :=
    match s₀ with
    | '-' :: r => (true, r)
    | '+' :: r => (false, r)
    | _ => (false, s₀)
  let neg := sgnStrip.1
  let s₁ := sgnStrip.2
  let intD := s₁.takeWhile Char.isDigit
  let s₂ := s₁.dropWhile Char.isDigit
  let fracSplit : Str × Str :=
    match s₂ with
    | '.' :: r => (r.takeWhile Char.isDigit, r.dropWhile Char.isDigit)
    | _ => ([], s₂)
  let fracD := fracSplit.1
  let s₃ := fracSplit.2
  if intD = [] ∧ fracD = [] then none
  else
    let mant : ℚ := (digitsToNat (intD ++ fracD) : ℚ) / (10 : ℚ) ^ fracD.length
    let expSplit : Bool × Str :=
      match s₃ with
      | 'e' :: '-' :: r => (true, r.takeWhile Char.isDigit)
      | 'e' :: '+' :: r => (false, r.takeWhile Char.isDigit)
      | 'e' :: r => (false, r.takeWhile Char.isDigit)
      | 'E' :: '-' :: r => (true, r.takeWhile Char.isDigit)
      | 'E' :: '+' :: r => (false, r.takeWhile Char.isDigit)
      | 'E' :: r => (false, r.takeWhile Char.isDigit)
      | _ => (false, [])
    let e := digitsToNat expSplit.2
    let m : ℚ := if neg then -mant else mant
    some (if expSplit.1 then m / (10 : ℚ) ^ e else m * (10 : ℚ) ^ e)

/-- `String.prototype.replace(/,/g, '')`: delete every comma. -/
def removeCommas (l : Str) : Str := l.filter (fun c => c ≠ ',')

/-- One PapaParse row under `header: true`: each expected column holds
either the cell text or `none` when the column is absent (JavaScript
`undefined`).  Extra columns are irrelevant to the program and omitted. -/
structure Row where
  BA : Option Str
  monthly : Option Str
  actCode : Option Str
  amount : Option Str
deriving DecidableEq

/-- A normalized transaction record (`Transaction` in `types.ts`);
`amount` is the parsed number, `originalAmountStr` the raw cell. -/
structure Transaction where
  id : Nat
  BA : Option Str
  monthly : Option Str
  actCode : Option Str
  amount : ℚ
  originalAmountStr : Option Str
deriving DecidableEq

/-- The amount string the normalizer feeds to `parseFloat`:
`row['amount'] ? row['amount'].toString().replace(/,/g, '') : '0'`.
A missing (`undefined`) or empty cell is falsy and is replaced by
`'0'`; otherwise every comma is removed. -/
def amountStrOf (row : Row) : Str :=
  match row.amount with
  | none => ['0']
  | some s => if s = [] then ['0'] else removeCommas s

/-- The row-to-record mapper from `handleFileSelect`'s
`results.data.map((row, index) => ...)`: parse the sanitized amount,
return `none` (JavaScript `null`, filtered out next) when it is NaN,
otherwise build the record carrying the pre-filter index as `id`. -/
def parseRowFn (i : Nat) (row : Row) : Option Transaction :=
  match parseFloat (amountStrOf row) with
  | none => none
  | some amount =>
      some { id := i, BA := row.BA, monthly := row.monthly,
             actCode := row.actCode, amount := amount,
             originalAmountStr := row.amount }

/-- The mapper applied to one indexed row. -/
def parseRowPair (p : Nat × Row) : Option Transaction := parseRowFn p.1 p.2

/-- `results.data.map((row, index) => ...).filter(t => t !== null)`:
index every row, map, and keep the non-null results. -/
def parsedData (rows : List Row) : List Transaction :=
  rows.enum.filterMap parseRowPair

/-- Three-way lexicographic comparison by character code, modelling the
comparator `a.monthly.localeCompare(b.monthly)` (the spec fixes the
comparison as plain lexicographic string order). -/
def cmpStr : Str → Str → Int
  | [], [] => 0
  | [], _ :: _ => -1
  | _ :: _, [] => 1
  | a :: as, b :: bs =>
      if a.toNat < b.toNat then -1
      else if b.toNat < a.toNat then 1
      else cmpStr as bs

/-- Comparator key: a record's `monthly` string (an absent `monthly`
column, which would make the JavaScript comparator throw, is outside
the modelled inputs and read as the empty string). -/
def monthlyKey (t : Transaction) : Str := t.monthly.getD []

/-- Stable insertion of one record into an already sorted list: the new
record goes after every record that compares less-or-equal, modelling
the stability `Array.prototype.sort` guarantees. -/
def insertT (t : Transaction) : List Transaction → List Transaction
  | [] => [t]
  | u :: us =>
      if cmpStr (monthlyKey u) (monthlyKey t) ≤ 0 then u :: insertT t us
      else t :: u :: us

/-- `parsedData.sort((a, b) => a.monthly.localeCompare(b.monthly))`
as a stable sort. -/
def sortByMonthly (l : List Transaction) : List Transaction :=
  l.foldl (fun acc t => insertT t acc) []

/-- The message of the error thrown when no row survives. -/
def noValidDataMsg : Str := "No valid data found in CSV.".toList

/-- The normalization core of `handleFileSelect`'s `complete` callback:
map rows to records, fail the cycle when nothing survives, otherwise
sort the survivors by period.  The thrown `Error` is modelled as
`Except.error` carrying its message; the structural-error callback of
PapaParse lies outside this model's inputs. -/
def handleFileSelect (rows : List Row) : Except Str (List Transaction) :=
  let pd := parsedData rows
  if pd = [] then Except.error noValidDataMsg
  else Except.ok (sortByMonthly pd)

/-- The hard-coded truncation limit in `analyzeAnomalies`
(`data.slice(0, 500)`); the spec treats it as the configured cap. -/
def sampleLimit : Nat := 500

/-- The minimized outbound projection of one record: exactly the fields
`id`, `actCode`, `monthly`, `amount`; business area and the raw amount
text are absent from this type by construction. -/
structure SampleRecord where
  id : Nat
  actCode : Option Str
  monthly : Option Str
  amount : ℚ
deriving DecidableEq

/-- The field projection inside `analyzeAnomalies`'s
`data.slice(0, 500).map(t => ({id, actCode, monthly, amount}))`. -/
def sampleProj (t : Transaction) : SampleRecord :=
  { id := t.id, actCode := t.actCode, monthly := t.monthly, amount := t.amount }

/-- The request builder: `data.slice(0, 500).map(...)`. -/
def sampleData (data : List Transaction) : List SampleRecord :=
  (data.take sampleLimit).map sampleProj

/-- One anomaly finding as the display layer consumes it (`Anomaly` in
`types.ts`); `severity` is a plain runtime string — the TypeScript
union type is erased and nothing checks it at runtime. -/
structure Anomaly where
  transactionId : Int
  reason : Str
  severity : Str
deriving DecidableEq

/-- The reconciliation join from `App`'s render:
`analysis.anomalies.map(a => transactions.find(t => t.id === a.transactionId))`,
rendering `null` (dropping the finding) when no transaction matches and
pairing the finding with the found transaction otherwise. -/
def reconcile (anomalies : List Anomaly) (txs : List Transaction) :
    List (Anomaly × Transaction) :=
  anomalies.filterMap (fun a =>
    (txs.find? (fun t => (t.id : Int) == a.transactionId)).map (fun t => (a, t)))

/-- The five-value `LoadingState` enum from `types.ts`. -/
inductive LoadingState where
  | IDLE
  | PARSING
  | ANALYZING
  | COMPLETED
  | ERROR
deriving DecidableEq, Fintype

/-- The user/system events that drive `loadingState` in `App.tsx`:
selecting a file, the parse callback resolving either way, the
analysis promise resolving either way, and the reset button. -/
inductive UiEvent where
  | upload
  | parseOk
  | parseFail
  | analysisOk
  | analysisFail
  | reset
deriving DecidableEq, Fintype

/-- The loading-state transition function read off `App.tsx`:
`handleFileSelect` sets PARSING, and the `FileUpload` widget that can
fire it is rendered exactly when the state is IDLE or ERROR; the parse
callback moves PARSING to ANALYZING (via `startAnalysis`) on success
and to ERROR on failure; the awaited analysis moves ANALYZING to
COMPLETED or ERROR; the "Analyze another file" button, rendered only in
COMPLETED, sets IDLE.  `none` means the event cannot fire in that
state. -/
def stepState : LoadingState → UiEvent → Option LoadingState
  | .IDLE, .upload => some .PARSING
  | .ERROR, .upload => some .PARSING
  | .PARSING, .parseOk => some .ANALYZING
  | .PARSING, .parseFail => some .ERROR
  | .ANALYZING, .analysisOk => some .COMPLETED
  | .ANALYZING, .analysisFail => some .ERROR
  | .COMPLETED, .reset => some .IDLE
  | _, _ => none

/-- The transition edges the spec's design note allows:
idle→parsing→analyzing→(completed or error), parsing→error, and
completed/error→idle on reset. -/
def specEdges : List (LoadingState × LoadingState) :=
  [(.IDLE, .PARSING), (.PARSING, .ANALYZING), (.ANALYZING, .COMPLETED),
   (.ANALYZING, .ERROR), (.PARSING, .ERROR), (.COMPLETED, .IDLE),
   (.ERROR, .IDLE)]

/-- The transition edges the code actually realizes: as `specEdges`,
except that ERROR recovers by a fresh upload (ERROR→PARSING) and has
no reset edge back to IDLE. -/
def codeEdges : List (LoadingState × LoadingState) :=
  [(.IDLE, .PARSING), (.ERROR, .PARSING), (.PARSING, .ANALYZING),
   (.PARSING, .ERROR), (.ANALYZING, .COMPLETED), (.ANALYZING, .ERROR),
   (.COMPLETED, .IDLE)]

/-- Parsed JSON values (the result type of the modelled `JSON.parse`). -/
inductive Json where
  | jnull : Json
  | jbool : Bool → Json
  | jnum : ℚ → Json
  | jstr : Str → Json
  | jarr : List Json → Json
  | jobj : List (Str × Json) → Json

/-- Resolve a single-character JSON string escape (`\uXXXX` escapes are
not interpreted by the model; unknown escapes pass through). -/
def unescapeChar (c : Char) : Char :=
  match c with
  | 'n' => '\n'
  | 't' => '\t'
  | 'r' => '\r'
  | 'b' => '\x08'
  | 'f' => '\x0c'
  | _ => c

/-- Parse the body of a JSON string after the opening quote, returning
the decoded characters and the remainder after the closing quote. -/
def parseStringBody : Str → Option (Str × Str)
  | [] => none
  | '"' :: r => some ([], r)
  | '\\' :: c :: r =>
      (parseStringBody r).map (fun p => (unescapeChar c :: p.1, p.2))
  | c :: r => (parseStringBody r).map (fun p => (c :: p.1, p.2))

/-- Parse a JSON number at the head of the input: optional minus,
integer digits, optional fraction, optional exponent. -/
def parseNum (l : Str) : Option (Json × Str) :=
  let sgnStrip : Bool × Str :=
    match l with
    | '-' :: r => (true, r)
    | _ => (false, l)
  let neg := sgnStrip.1
  let s := sgnStrip.2
  let intD := s.takeWhile Char.isDigit
  let s₁ := s.dropWhile Char.isDigit
  if intD = [] then none
  else
    let fracSplit : Str × Str :=
      match s₁ with
      | '.' :: r =>
          if r.takeWhile Char.isDigit = [] then ([], s₁)
          else (r.takeWhile Char.isDigit, r.dropWhile Char.isDigit)
      | _ => ([], s₁)
    let fracD := fracSplit.1
    let s₂ := fracSplit.2
    let expSplit : Bool × Str × Str :=
      match s₂ with
      | 'e' :: '-' :: r => (true, r.takeWhile Char.isDigit, r.dropWhile Char.isDigit)
      | 'e' :: '+' :: r => (false, r.takeWhile Char.isDigit, r.dropWhile Char.isDigit)
      | 'e' :: r => (false, r.takeWhile Char.isDigit, r.dropWhile Char.isDigit)
      | 'E' :: '-' :: r => (true, r.takeWhile Char.isDigit, r.dropWhile Char.isDigit)
      | 'E' :: '+' :: r => (false, r.takeWhile Char.isDigit, r.dropWhile Char.isDigit)
      | 'E' :: r => (false, r.takeWhile Char.isDigit, r.dropWhile Char.isDigit)
      | _ => (false, [], s₂)
    let expOk := expSplit.2.1 ≠ []
    let rest := if expOk then expSplit.2.2 else s₂
    let mant : ℚ := (digitsToNat (intD ++ fracD) : ℚ) / (10 : ℚ) ^ fracD.length
    let withExp : ℚ :=
      if expOk then
        if expSplit.1 then mant / (10 : ℚ) ^ digitsToNat expSplit.2.1
        else mant * (10 : ℚ) ^ digitsToNat expSplit.2.1
      else mant
    some (Json.jnum (if neg then -withExp else withExp), rest)

/-- Skip insignificant JSON whitespace. -/
def skipWS (l : Str) : Str := l.dropWhile isWS

mutual

/-- Fuel-bounded recursive-descent parser for one JSON value,
modelling `JSON.parse`'s grammar; returns the value and the unconsumed
remainder. -/
def parseVal : Nat → Str → Option (Json × Str)
  | 0, _ => none
  | Nat.succ fuel, l =>
      match skipWS l with
      | 'n' :: 'u' :: 'l' :: 'l' :: r => some (Json.jnull, r)
      | 't' :: 'r' :: 'u' :: 'e' :: r => some (Json.jbool true, r)
      | 'f' :: 'a' :: 'l' :: 's' :: 'e' :: r => some (Json.jbool false, r)
      | '"' :: r => (parseStringBody r).map (fun p => (Json.jstr p.1, p.2))
      | '[' :: r =>
          match skipWS r with
          | ']' :: r' => some (Json.jarr [], r')
          | _ => (parseElems fuel r).map (fun p => (Json.jarr p.1, p.2))
      | '\x7b' :: r =>
          match skipWS r with
          | '\x7d' :: r' => some (Json.jobj [], r')
          | _ => (parseMembers fuel r).map (fun p => (Json.jobj p.1, p.2))
      | l' => parseNum l'

/-- Parse the comma-separated elements of a nonempty JSON array,
consuming the closing bracket. -/
def parseElems : Nat → Str → Option (List Json × Str)
  | 0, _ => none
  | Nat.succ fuel, l =>
      match parseVal fuel l with
      | none => none
      | some (v, r) =>
          match skipWS r with
          | ',' :: r' =>
              match parseElems fuel r' with
              | none => none
              | some (vs, r'') => some (v :: vs, r'')
          | ']' :: r' => some ([v], r')
          | _ => none

/-- Parse the comma-separated members of a nonempty JSON object,
consuming the closing brace. -/
def parseMembers : Nat → Str → Option (List (Str × Json) × Str)
  | 0, _ => none
  | Nat.succ fuel, l =>
      match skipWS l with
      | '"' :: r =>
          match parseStringBody r with
          | none => none
          | some (k, r₁) =>
              match skipWS r₁ with
              | ':' :: r₂ =>
                  match parseVal fuel r₂ with
                  | none => none
                  | some (v, r₃) =>
                      match skipWS r₃ with
                      | ',' :: r₄ =>
                          match parseMembers fuel r₄ with
                          | none => none
                          | some (ms, r₅) => some ((k, v) :: ms, r₅)
                      | '\x7d' :: r₄ => some ([(k, v)], r₄)
                      | _ => none
              | _ => none
      | _ => none

end

/-- The core of the modelled `JSON.parse` applied to an already trimmed
text: parse one value with ample fuel and require only whitespace to
remain. -/
def parseJsonCore (t : Str) : Option Json :=
  match parseVal (2 * t.length + 2) t with
  | some (v, r) => if skipWS r = [] then some v else none
  | none => none

/-- Modelled `JSON.parse`: surrounding whitespace is insignificant, the
whole (trimmed) text must be exactly one JSON value. -/
def parseJson (s : Str) : Option Json := parseJsonCore (trimS s)

/-- The three-backtick fence marker. -/
def fenceTok : Str := '`' :: '`' :: '`' :: []

/-- The language-tagged opening fence marker. -/
def jsonFenceTok : Str := '`' :: '`' :: '`' :: 'j' :: 's' :: 'o' :: 'n' :: []

/-- The leading-fence strip in `cleanJsonString`:
`replace(/^```json\s*/, '')` when the text starts with the tagged
marker (the seven marker characters plus the whitespace after them),
else `replace(/^```\s*/, '')` when it starts with a bare fence. -/
def stripLeadFence (c₀ : Str) : Str :=
  if startsWithL jsonFenceTok c₀ then trimL (c₀.drop 7)
  else if startsWithL fenceTok c₀ then trimL (c₀.drop 3)
  else c₀

/-- The trailing-fence strip in `cleanJsonString`:
`replace(/\s*```$/, '')` when the text ends with a fence — the three
marker characters plus the whitespace run just before them. -/
def stripTrailFence (c₁ : Str) : Str :=
  if endsWithL fenceTok c₁ then trimR (dropRightL 3 c₁) else c₁

/-- `cleanJsonString` from `geminiService.ts`: trim, strip a leading
fence, then strip a trailing fence. -/
def cleanJsonString (text : Str) : Str :=
  stripTrailFence (stripLeadFence (trimS text))

/-- The message of the error thrown on an empty response body. -/
def emptyRespMsg : Str := "Gemini returned an empty response.".toList

/-- The remediation message for a credential failure. -/
def apiKeyMsg : Str :=
  "Invalid or missing API Key. Please check your Vercel environment variables.".toList

/-- The generic failure message, to which the inner message is appended. -/
def failedMsgPre : Str := "Failed to analyze data. ".toList

/-- The substring `'403'` that marks a credential rejection. -/
def tok403 : Str := "403".toList

/-- The substring `'API key'` that marks a credential problem. -/
def tokApiKey : Str := "API key".toList

/-- Stand-in for the message of the exception the modelled `JSON.parse`
throws on malformed input. -/
def jsonParseMsg : Str := "Unexpected token in JSON".toList

/-- The `catch` handler of `analyzeAnomalies`:
`error.message?.includes('403') || error.message?.includes('API key')`
rethrows the dedicated credential message, anything else the generic
message with the original appended. -/
def wrapCatch (msg : Str) : Str :=
  if occursIn tok403 msg || occursIn tokApiKey msg then apiKeyMsg
  else failedMsgPre ++ msg

/-- The response half of `analyzeAnomalies` in `geminiService.ts`.  The
network call is abstracted as the input: `Except.error e` is a
transport/service exception with message `e`, `Except.ok none` a reply
whose `response.text` is `undefined`, `Except.ok (some t)` a reply with
body `t`.  Inside the `try`: an absent or empty body throws the
empty-response error; otherwise the body is fence-cleaned and handed to
`JSON.parse`, whose result is returned as-is (the `as AnalysisResult`
cast performs no runtime check).  Every exception is rewrapped by the
`catch` handler. -/
def analyzeAnomalies (resp : Except Str (Option Str)) : Except Str Json :=
  let inner : Except Str Json :=
    match resp with
    | Except.error e => Except.error e
    | Except.ok none => Except.error emptyRespMsg
    | Except.ok (some text) =>
        if text = [] then Except.error emptyRespMsg
        else
          match parseJson (cleanJsonString text) with
          | some v => Except.ok v
          | none => Except.error jsonParseMsg
  match inner with
  | Except.ok v => Except.ok v
  | Except.error e => Except.error (wrapCatch e)

/-- A response wrapped in a `json`-tagged Markdown fence, as in the
spec's example: the tagged opening fence, a newline, the payload, a
newline, and the closing fence. -/
def fencedTagged (j : Str) : Str :=
  jsonFenceTok ++ ('\n' :: (j ++ ('\n' :: fenceTok)))

/-- A response wrapped in an untagged Markdown fence. -/
def fencedPlain (j : Str) : Str :=
  fenceTok ++ ('\n' :: (j ++ ('\n' :: fenceTok)))

/-- A matched finding, a dropped finding, and one transaction used by
the reconciliation witness. -/
def exTx0 : Transaction :=
  { id := 0, BA := none, monthly := some "2024-01".toList,
    actCode := some "A1".toList, amount := 50, originalAmountStr := some "50".toList }

/-- A finding whose `transactionId` matches `exTx0`. -/
def exFindMatch : Anomaly :=
  { transactionId := 0, reason := "high".toList, severity := "HIGH".toList }

/-- A finding whose `transactionId` (9999) matches nothing. -/
def exFindStray : Anomaly :=
  { transactionId := 9999, reason := "stray".toList, severity := "LOW".toList }

/-- A concrete row whose amount cell is present but empty. -/
def exRowEmptyAmt : Row :=
  { BA := none, monthly := some "2024-03".toList,
    actCode := some "A9".toList, amount := some [] }

/-- A concrete row carrying the spec's example amount `"1,234.50"`. -/
def exRowComma : Row :=
  { BA := some "X".toList, monthly := some "2024-01".toList,
    actCode := some "A1".toList, amount := some "1,234.50".toList }

/-- A row that parses (amount 5, period 2024-01). -/
def exRowA : Row :=
  { BA := some "X".toList, monthly := some "2024-01".toList,
    actCode := some "A1".toList, amount := some "5".toList }

/-- A row whose amount `"abc"` fails to parse. -/
def exRowBad : Row :=
  { BA := some "X".toList, monthly := some "2024-01".toList,
    actCode := some "A1".toList, amount := some "abc".toList }

/-- A row that parses (amount 7, period 2024-02). -/
def exRowB : Row :=
  { BA := some "X".toList, monthly := some "2024-02".toList,
    actCode := some "A1".toList, amount := some "7".toList }

/-- A syntactically valid JSON response with a non-string `summary`
(the number 1) and a `severity` outside the allowed set
(`"CRITICAL"`). -/
def critRespText : Str :=
  "\x7b\"summary\":1,\"anomalies\":[\x7b\"transactionId\":0,\"reason\":\"r\",\"severity\":\"CRITICAL\"\x7d]\x7d".toList

/-- The JSON value `critRespText` parses to. -/
def critRespVal : Json :=
  Json.jobj
    [("summary".toList, Json.jnum 1),
     ("anomalies".toList,
       Json.jarr
         [Json.jobj
           [("transactionId".toList, Json.jnum 0),
            ("reason".toList, Json.jstr "r".toList),
            ("severity".toList, Json.jstr "CRITICAL".toList)]])]

/-- A syntactically valid JSON response with no `summary` member at
all. -/
def noSummaryText : Str := "\x7b\"anomalies\":[]\x7d".toList

/-- The JSON value `noSummaryText` parses to. -/
def noSummaryVal : Json := Json.jobj [("anomalies".toList, Json.jarr [])]

lemma trimL_cons_of_ws {c : Char} (h : isWS c = true) (l : Str) :
    trimL (c :: l) = trimL l := by
  simp [trimL, List.dropWhile_cons, h]

lemma trimL_cons_of_not_ws {c : Char} (h : isWS c = false) (l : Str) :
    trimL (c :: l) = c :: l := by
  simp [trimL, List.dropWhile_cons, h]

lemma trimL_head_not_ws : ∀ {l : Str} {c : Char} {cs : Str},
    trimL l = c :: cs → isWS c = false := by
  intro l
  induction l with
  | nil => intro c cs h; simp [trimL] at h
  | cons a as ih =>
      intro c cs h
      by_cases ha : isWS a = true
      · rw [trimL_cons_of_ws ha] at h; exact ih h
      · rw [trimL_cons_of_not_ws (Bool.not_eq_true _ ▸ ha)] at h
        cases h; simpa using ha

lemma trimL_append_of_nil {x : Str} (h : trimL x = []) (y : Str) :
    trimL (x ++ y) = trimL y := by
  induction x with
  | nil => simp
  | cons a as ih =>
      by_cases ha : isWS a = true
      · rw [trimL_cons_of_ws ha] at h
        rw [List.cons_append, trimL_cons_of_ws ha]
        exact ih h
      · rw [trimL_cons_of_not_ws (Bool.not_eq_true _ ▸ ha)] at h
        cases h

lemma trimL_append_of_cons {x : Str} {c : Char} {cs : Str}
    (h : trimL x = c :: cs) (y : Str) :
    trimL (x ++ y) = c :: (cs ++ y) := by
  induction x with
  | nil => simp [trimL] at h
  | cons a as ih =>
      by_cases ha : isWS a = true
      · rw [trimL_cons_of_ws ha] at h
        rw [List.cons_append, trimL_cons_of_ws ha]
        exact ih h
      · have ha' : isWS a = false := Bool.not_eq_true _ ▸ ha
        rw [trimL_cons_of_not_ws ha'] at h
        cases h
        rw [List.cons_append, trimL_cons_of_not_ws ha']

lemma trimL_idem (l : Str) : trimL (trimL l) = trimL l := by
  cases h : trimL l with
  | nil => simp [trimL]
  | cons c cs => exact trimL_cons_of_not_ws (trimL_head_not_ws h) cs

lemma trimR_of_reverse (l : Str) : trimR l = (trimL l.reverse).reverse := rfl

lemma trimR_idem (l : Str) : trimR (trimR l) = trimR l := by
  simp only [trimR_of_reverse, List.reverse_reverse, trimL_idem]

lemma trimR_append_ws {c : Char} (h : isWS c = true) (l : Str) :
    trimR (l ++ [c]) = trimR l := by
  simp only [trimR_of_reverse, List.reverse_append, List.reverse_cons,
    List.reverse_nil, List.nil_append, List.singleton_append]
  rw [trimL_cons_of_ws h]

lemma trimL_trimR_of_self {x : Str} (h : trimL x = x) :
    trimL (trimR x) = trimR x := by
  cases hy : trimR x with
  | nil => simp [trimL]
  | cons c cs =>
      have hsuf : ∃ t, t ++ trimL x.reverse = x.reverse :=
        (List.dropWhile_suffix isWS : List.IsSuffix _ _)
      obtain ⟨t, ht⟩ := hsuf
      have hx : x = trimR x ++ t.reverse := by
        have := congrArg List.reverse ht
        simpa [trimR_of_reverse, List.reverse_append] using this.symm
      have hhead : isWS c = false := by
        rw [hy] at hx
        rw [hx] at h
        rw [List.cons_append] at h
        cases hws : isWS c with
        | false => rfl
        | true =>
            exfalso
            rw [trimL_cons_of_ws hws] at h
            have hle : (c :: (cs ++ t.reverse)).length ≤ (cs ++ t.reverse).length := by
              calc (c :: (cs ++ t.reverse)).length
                  = (trimL (cs ++ t.reverse)).length := by rw [h]
                _ ≤ (cs ++ t.reverse).length :=
                    (List.dropWhile_suffix isWS).length_le
            simp at hle
      exact trimL_cons_of_not_ws hhead cs

lemma trimS_idem (l : Str) : trimS (trimS l) = trimS l := by
  unfold trimS
  rw [trimL_trimR_of_self (trimL_idem l), trimR_idem]

lemma parseJson_trimS (s : Str) : parseJson (trimS s) = parseJson s := by
  unfold parseJson
  rw [trimS_idem]

lemma trimR_wrap (x : Str) :
    trimR ('`' :: (x ++ ('\n' :: fenceTok))) = '`' :: (x ++ ('\n' :: fenceTok)) := by
  have h1 : ('`' :: (x ++ ('\n' :: fenceTok))).reverse
      = '`' :: '`' :: '`' :: '\n' :: (x.reverse ++ ['`']) := by
    simp [fenceTok]
  rw [trimR_of_reverse, h1, trimL_cons_of_not_ws (by decide)]
  rw [← h1, List.reverse_reverse]

lemma trimS_wrap (x : Str) :
    trimS ('`' :: (x ++ ('\n' :: fenceTok))) = '`' :: (x ++ ('\n' :: fenceTok)) := by
  unfold trimS
  rw [trimL_cons_of_not_ws (by decide), trimR_wrap]

lemma stripTrail_of_core {c : Char} (cs : Str) :
    stripTrailFence (c :: (cs ++ ('\n' :: fenceTok))) = trimR (c :: cs) := by
  have hrev : (c :: (cs ++ ('\n' :: fenceTok))).reverse
      = '`' :: '`' :: '`' :: '\n' :: (cs.reverse ++ [c]) := by
    simp [fenceTok]
  have hends : endsWithL fenceTok (c :: (cs ++ ('\n' :: fenceTok))) = true := by
    rw [endsWithL, hrev]
    simp [startsWithL, fenceTok]
  have hdrop : dropRightL 3 (c :: (cs ++ ('\n' :: fenceTok))) = (c :: cs) ++ ['\n'] := by
    rw [dropRightL, hrev]
    simp
  rw [stripTrailFence, hends, if_pos rfl, hdrop, trimR_append_ws (by decide)]

lemma clean_fencedTagged (j : Str) :
    cleanJsonString (fencedTagged j) = trimS j := by
  have hw : fencedTagged j
      = '`' :: (('`' :: '`' :: 'j' :: 's' :: 'o' :: 'n' :: '\n' :: j)
          ++ ('\n' :: fenceTok)) := by
    simp [fencedTagged, jsonFenceTok]
  rw [cleanJsonString, hw, trimS_wrap]
  have hsw : startsWithL jsonFenceTok
      ('`' :: (('`' :: '`' :: 'j' :: 's' :: 'o' :: 'n' :: '\n' :: j)
        ++ ('\n' :: fenceTok))) = true := by
    simp [startsWithL, jsonFenceTok]
  have hdrop : ('`' :: (('`' :: '`' :: 'j' :: 's' :: 'o' :: 'n' :: '\n' :: j)
      ++ ('\n' :: fenceTok))).drop 7 = '\n' :: (j ++ ('\n' :: fenceTok)) := by
    simp
  rw [stripLeadFence, hsw, if_pos rfl, hdrop, trimL_cons_of_ws (by decide)]
  cases h : trimL j with
  | nil =>
      rw [trimL_append_of_nil h]
      have h2 : trimL ('\n' :: fenceTok) = fenceTok := by decide
      have h3 : stripTrailFence fenceTok = [] := by decide
      rw [h2, h3, trimS, h]
      rfl
  | cons c cs =>
      rw [trimL_append_of_cons h, stripTrail_of_core, trimS, h]

lemma clean_fencedPlain (j : Str) :
    cleanJsonString (fencedPlain j) = trimS j := by
  have hw : fencedPlain j
      = '`' :: (('`' :: '`' :: '\n' :: j) ++ ('\n' :: fenceTok)) := by
    simp [fencedPlain, fenceTok]
  rw [cleanJsonString, hw, trimS_wrap]
  have hsw1 : startsWithL jsonFenceTok
      ('`' :: (('`' :: '`' :: '\n' :: j) ++ ('\n' :: fenceTok))) = false := by
    simp [startsWithL, jsonFenceTok]
  have hsw2 : startsWithL fenceTok
      ('`' :: (('`' :: '`' :: '\n' :: j) ++ ('\n' :: fenceTok))) = true := by
    simp [startsWithL, fenceTok]
  have hdrop : ('`' :: (('`' :: '`' :: '\n' :: j)
      ++ ('\n' :: fenceTok))).drop 3 = '\n' :: (j ++ ('\n' :: fenceTok)) := by
    simp
  rw [stripLeadFence, hsw1, if_neg (by simp), hsw2, if_pos rfl, hdrop,
    trimL_cons_of_ws (by decide)]
  cases h : trimL j with
  | nil =>
      rw [trimL_append_of_nil h]
      have h2 : trimL ('\n' :: fenceTok) = fenceTok := by decide
      have h3 : stripTrailFence fenceTok = [] := by decide
      rw [h2, h3, trimS, h]
      rfl
  | cons c cs =>
      rw [trimL_append_of_cons h, stripTrail_of_core, trimS, h]

/-- C4: for every text `j`, wrapping `j` in a leading Markdown fence
(tagged `` ```json `` or bare) and a trailing `` ``` `` fence and then
cleaning and parsing yields the same parsed object as parsing the
unfenced `j` directly: `cleanJsonString` removes the fence markers
(leaving at most surrounding whitespace, which `JSON.parse` ignores)
before structured parsing. -/
theorem c4_fence_strip_round_trip (j : Str) :
    parseJson (cleanJsonString (fencedTagged j)) = parseJson j
  ∧ parseJson (cleanJsonString (fencedPlain j)) = parseJson j := by
  refine ⟨?_, ?_⟩
  · rw [clean_fencedTagged, parseJson_trimS]
  · rw [clean_fencedPlain, parseJson_trimS]

/-- C3: the outbound payload holds at most `sampleLimit` records, is
exactly the prefix of the sequence in its current order (slicing and
projecting commute), and each record is projected to the
`SampleRecord` fields only. -/
theorem c3_request_builder_cap (data : List Transaction) :
    (sampleData data).length ≤ sampleLimit
  ∧ (sampleData data).length = min sampleLimit data.length
  ∧ sampleData data = (data.map sampleProj).take sampleLimit := by
  refine ⟨?_, ?_, ?_⟩
  · simp [sampleData]
  · simp [sampleData]
  · simp [sampleData, List.map_take]

/-- C9 counterexample: from ERROR, selecting a new file moves the
state machine straight to PARSING, an edge absent from the spec's
allowed set (which only lets ERROR return to IDLE on reset). -/
theorem c9_error_upload_edge_counterexample :
    stepState LoadingState.ERROR UiEvent.upload = some LoadingState.PARSING
  ∧ (LoadingState.ERROR, LoadingState.PARSING) ∉ specEdges := by
  decide

/-- C9 (amended): every transition the code can make lies in
`codeEdges` — the spec's edges with ERROR→IDLE replaced by
ERROR→PARSING (re-upload from the error screen) — and every edge of
`codeEdges` is realized by some event. -/
theorem c9_state_machine_edges :
    (∀ s e s', stepState s e = some s' → (s, s') ∈ codeEdges)
  ∧ (∀ p ∈ codeEdges, ∃ e, stepState p.1 e = some p.2) := by
  decide

/-- Witness for C9's amended theorem at the concrete transition
ERROR→PARSING. -/
theorem c9_state_machine_edges_witness :
    (LoadingState.ERROR, LoadingState.PARSING) ∈ codeEdges :=
  c9_state_machine_edges.1 LoadingState.ERROR UiEvent.upload
    LoadingState.PARSING rfl

/-- C7: reconciliation pairs each finding with a transaction of equal
id, silently drops findings with no matching transaction (the join is
total: it returns a list, never an error), and the surviving findings
keep their original relative order — the output's finding column is a
filter of the input list. -/
theorem c7_reconcile_join (anomalies : List Anomaly) (txs : List Transaction) :
    (∀ p ∈ reconcile anomalies txs,
        p.2 ∈ txs ∧ (p.2.id : Int) = p.1.transactionId)
  ∧ (reconcile anomalies txs).map Prod.fst
      = anomalies.filter
          (fun a => (txs.find? (fun t => (t.id : Int) == a.transactionId)).isSome) := by
  constructor
  · intro p hp
    rw [reconcile, List.mem_filterMap] at hp
    obtain ⟨a, _, hfa⟩ := hp
    cases hfind : txs.find? (fun t => (t.id : Int) == a.transactionId) with
    | none => rw [hfind] at hfa; simp at hfa
    | some t =>
        rw [hfind] at hfa
        simp only [Option.map_some'] at hfa
        cases hfa
        exact ⟨List.mem_of_find?_eq_some hfind,
          by simpa using List.find?_some hfind⟩
  · induction anomalies with
    | nil => rfl
    | cons a as ih =>
        rw [reconcile, List.filterMap_cons, List.filter_cons]
        cases hfind : txs.find? (fun t => (t.id : Int) == a.transactionId) with
        | none => simpa [hfind, reconcile] using ih
        | some t => simpa [hfind, reconcile] using ih

/-- Witness for C7 at a concrete dataset: the stray finding is
dropped, the matched one kept, order preserved. -/
theorem c7_reconcile_join_witness :
    (reconcile [exFindMatch, exFindStray] [exTx0]).map Prod.fst
      = [exFindMatch, exFindStray].filter
          (fun a => (([exTx0] : List Transaction).find?
              (fun t => (t.id : Int) == a.transactionId)).isSome) :=
  (c7_reconcile_join [exFindMatch, exFindStray] [exTx0]).2

/-- C10: a row whose `amount` cell is absent (`undefined`) or the
empty string is falsy, so the normalizer substitutes the string `'0'`;
the row is kept as a record whose amount is 0 instead of being
dropped. -/
theorem c10_falsy_amount_defaults_to_zero (i : Nat) (row : Row)
    (h : row.amount = none ∨ row.amount = some []) :
    (parseRowFn i row).map Transaction.amount = some 0 := by
  have ha : amountStrOf row = ['0'] := by
    rcases h with h | h <;> simp [amountStrOf, h]
  have hz : parseFloat ['0'] = some 0 := by with_unfolding_all rfl
  simp [parseRowFn, ha, hz]

/-- Witness for C10 on a concrete row with an empty amount cell. -/
theorem c10_falsy_amount_defaults_to_zero_witness :
    (parseRowFn 3 exRowEmptyAmt).map Transaction.amount = some 0 :=
  c10_falsy_amount_defaults_to_zero 3 exRowEmptyAmt (Or.inr rfl)

/-- C5: for every row whose raw amount cell is a nonempty string, the
normalizer parses the cell with every comma removed; when that parse
succeeds the record's amount is exactly that value and the original
unparsed string is retained on the record. -/
theorem c5_comma_stripped_amount (i : Nat) (row : Row) (s : Str) (q : ℚ)
    (hs : row.amount = some s) (hne : s ≠ [])
    (hp : parseFloat (removeCommas s) = some q) :
    (parseRowFn i row).map Transaction.amount = some q
  ∧ (parseRowFn i row).map Transaction.originalAmountStr = some (some s) := by
  have ha : amountStrOf row = removeCommas s := by
    simp [amountStrOf, hs, hne]
  constructor <;> simp [parseRowFn, ha, hp, hs]

/-- Witness for C5 at the spec's example `"1,234.50"`: the commas are
stripped and the parsed amount is 1234.50. -/
theorem c5_comma_stripped_amount_witness :
    (parseRowFn 0 exRowComma).map Transaction.amount = some ((2469 : ℚ) / 2)
  ∧ (parseRowFn 0 exRowComma).map Transaction.originalAmountStr
      = some (some "1,234.50".toList) :=
  c5_comma_stripped_amount 0 exRowComma "1,234.50".toList ((2469 : ℚ) / 2) rfl
    (by decide) (by with_unfolding_all rfl)

lemma parseRowFn_eq_none (i : Nat) (row : Row) :
    parseRowFn i row = none ↔ parseFloat (amountStrOf row) = none := by
  cases h : parseFloat (amountStrOf row) <;> simp [parseRowFn, h]

lemma pd_map_id_aux (n : Nat) (l : List Row) :
    ((List.enumFrom n l).filterMap parseRowPair).map Transaction.id
      = ((List.enumFrom n l).filter
          (fun p => (parseFloat (amountStrOf p.2)).isSome)).map Prod.fst := by
  induction l generalizing n with
  | nil => rfl
  | cons r rs ih =>
      rw [List.enumFrom_cons]
      cases h : parseFloat (amountStrOf r) with
      | none =>
          have h0 : parseRowPair (n, r) = none := by
            simp [parseRowPair, parseRowFn, h]
          rw [List.filterMap_cons_none h0,
            List.filter_cons_of_neg (by simp [h]), ih]
      | some q =>
          have h0 : parseRowPair (n, r) = some
              { id := n, BA := r.BA, monthly := r.monthly, actCode := r.actCode,
                amount := q, originalAmountStr := r.amount } := by
            simp [parseRowPair, parseRowFn, h]
          rw [List.filterMap_cons_some h0,
            List.filter_cons_of_pos (by simp [h]), List.map_cons, List.map_cons, ih]

lemma pd_len_aux (n : Nat) (l : List Row) :
    ((List.enumFrom n l).filterMap parseRowPair).length
      = (l.filter (fun r => (parseFloat (amountStrOf r)).isSome)).length := by
  induction l generalizing n with
  | nil => rfl
  | cons r rs ih =>
      rw [List.enumFrom_cons]
      cases h : parseFloat (amountStrOf r) with
      | none =>
          have h0 : parseRowPair (n, r) = none := by
            simp [parseRowPair, parseRowFn, h]
          rw [List.filterMap_cons_none h0,
            List.filter_cons_of_neg (by simp [h]), ih]
      | some q =>
          have h0 : parseRowPair (n, r) = some
              { id := n, BA := r.BA, monthly := r.monthly, actCode := r.actCode,
                amount := q, originalAmountStr := r.amount } := by
            simp [parseRowPair, parseRowFn, h]
          rw [List.filterMap_cons_some h0,
            List.filter_cons_of_pos (by simp [h]), List.length_cons,
            List.length_cons, ih]

lemma pd_nil_aux (n : Nat) (l : List Row) :
    ((List.enumFrom n l).filterMap parseRowPair) = []
      ↔ ∀ r ∈ l, parseFloat (amountStrOf r) = none := by
  induction l generalizing n with
  | nil => simp
  | cons r rs ih =>
      rw [List.enumFrom_cons]
      cases h : parseFloat (amountStrOf r) with
      | none =>
          have h0 : parseRowPair (n, r) = none := by
            simp [parseRowPair, parseRowFn, h]
          rw [List.filterMap_cons_none h0, ih]
          constructor
          · intro hall r' hr'
            rcases List.mem_cons.mp hr' with hr' | hr'
            · exact hr' ▸ h
            · exact hall r' hr'
          · intro hall r' hr'
            exact hall r' (List.mem_cons_of_mem r hr')
      | some q =>
          have h0 : parseRowPair (n, r) = some
              { id := n, BA := r.BA, monthly := r.monthly, actCode := r.actCode,
                amount := q, originalAmountStr := r.amount } := by
            simp [parseRowPair, parseRowFn, h]
          rw [List.filterMap_cons_some h0]
          constructor
          · intro hnil; cases hnil
          · intro hall
            exact absurd (hall r (List.mem_cons_self r rs)) (by simp [h])

lemma pd_ids_all_aux (n : Nat) (l : List Row)
    (h : ∀ r ∈ l, (parseFloat (amountStrOf r)).isSome = true) :
    ((List.enumFrom n l).filterMap parseRowPair).map Transaction.id
      = List.range' n l.length := by
  induction l generalizing n with
  | nil => rfl
  | cons r rs ih =>
      have hr := h r (List.mem_cons_self r rs)
      obtain ⟨q, hq⟩ := Option.isSome_iff_exists.mp hr
      have h0 : parseRowPair (n, r) = some
          { id := n, BA := r.BA, monthly := r.monthly, actCode := r.actCode,
            amount := q, originalAmountStr := r.amount } := by
        simp [parseRowPair, parseRowFn, hq]
      rw [List.enumFrom_cons, List.filterMap_cons_some h0, List.map_cons,
        ih (n + 1) (fun r' hr' => h r' (List.mem_cons_of_mem r hr')),
        List.length_cons, List.range']

lemma parsedData_enumFrom (rows : List Row) :
    parsedData rows = (List.enumFrom 0 rows).filterMap parseRowPair :=
  rfl

/-- C1 (amended): the normalizer keeps exactly the rows whose
sanitized amount parses, but each kept record's `id` is its row's
zero-based position among all input rows (assigned before the null
filter), in pre-sort order: an id slot is skipped for every dropped
row, and the ids form the dense sequence 0..k-1 exactly when no row is
dropped; when anything survives the cycle succeeds with the sorted
records. -/
theorem c1_ids_are_prefilter_positions (rows : List Row) :
    (parsedData rows).length
      = (rows.filter (fun r => (parseFloat (amountStrOf r)).isSome)).length
  ∧ (parsedData rows).map Transaction.id
      = (rows.enum.filter (fun p => (parseFloat (amountStrOf p.2)).isSome)).map Prod.fst
  ∧ ((∀ r ∈ rows, (parseFloat (amountStrOf r)).isSome = true) →
      (parsedData rows).map Transaction.id = List.range rows.length)
  ∧ (parsedData rows ≠ [] →
      handleFileSelect rows = Except.ok (sortByMonthly (parsedData rows))) := by
  refine ⟨?_, ?_, ?_, ?_⟩
  · rw [parsedData_enumFrom]; exact pd_len_aux 0 rows
  · rw [parsedData_enumFrom]; exact pd_map_id_aux 0 rows
  · intro h
    rw [parsedData_enumFrom, pd_ids_all_aux 0 rows h, List.range_eq_range']
  · intro h
    simp [handleFileSelect, h]

/-- C1 counterexample: on the input good/bad/good, two records are
kept but their ids are `[0, 2]` — the dropped middle row's id slot is
skipped, so the ids are not the dense sequence `0..k-1 = [0, 1]` over
the kept rows that the claim asserts. -/
theorem c1_dense_ids_counterexample :
    (handleFileSelect [exRowA, exRowBad, exRowB]).map (List.map Transaction.id)
      = Except.ok [0, 2]
  ∧ ([0, 2] : List Nat) ≠ List.range 2 := by
  constructor
  · with_unfolding_all rfl
  · decide

/-- Witness for C1's amended theorem: on an input where every row
parses, the ids are dense `0..k-1`. -/
theorem c1_ids_are_prefilter_positions_witness :
    (parsedData [exRowA, exRowB]).map Transaction.id
      = List.range (List.length [exRowA, exRowB]) :=
  (c1_ids_are_prefilter_positions [exRowA, exRowB]).2.2.1 (by decide)

/-- C6: a CSV with a header but zero data rows, and a CSV in which
every row's amount fails to parse, both fail the cycle with the
`ParseError` message (and the error carries no partial record
sequence); when at least one row parses the cycle instead succeeds,
the unparseable rows having been dropped silently. -/
theorem c6_no_valid_rows_is_parse_error (rows : List Row) :
    (rows = [] → handleFileSelect rows = Except.error noValidDataMsg)
  ∧ ((∀ r ∈ rows, parseFloat (amountStrOf r) = none) →
      handleFileSelect rows = Except.error noValidDataMsg)
  ∧ ((∃ r ∈ rows, parseFloat (amountStrOf r) ≠ none) →
      parsedData rows ≠ [] ∧
        handleFileSelect rows = Except.ok (sortByMonthly (parsedData rows))) := by
  refine ⟨?_, ?_, ?_⟩
  · rintro rfl
    rfl
  · intro h
    have hnil : parsedData rows = [] := (pd_nil_aux 0 rows).mpr h
    simp [handleFileSelect, hnil]
  · intro h
    obtain ⟨r, hr, hne⟩ := h
    have hnotnil : parsedData rows ≠ [] := by
      intro hnil
      exact hne ((pd_nil_aux 0 rows).mp hnil r hr)
    exact ⟨hnotnil, by simp [handleFileSelect, hnotnil]⟩

/-- Witness for C6: the empty input and the all-unparseable input both
yield the `ParseError` message. -/
theorem c6_no_valid_rows_is_parse_error_witness :
    handleFileSelect ([] : List Row) = Except.error noValidDataMsg
  ∧ handleFileSelect [exRowBad] = Except.error noValidDataMsg :=
  ⟨(c6_no_valid_rows_is_parse_error []).1 rfl,
   (c6_no_valid_rows_is_parse_error [exRowBad]).2.1 (by decide)⟩

/-- C8: an empty (or absent) response body raises the analysis-service
error (wrapped by the catch into the generic analysis-failure
message); a message marking a credential failure (`'403'` or
`'API key'`) is surfaced as the dedicated remediation message, which
differs from the generic message used for every other failure. -/
theorem c8_empty_body_and_credential_errors :
    analyzeAnomalies (Except.ok none) = Except.error (failedMsgPre ++ emptyRespMsg)
  ∧ analyzeAnomalies (Except.ok (some [])) = Except.error (failedMsgPre ++ emptyRespMsg)
  ∧ (∀ e : Str, (occursIn tok403 e || occursIn tokApiKey e) = true →
      analyzeAnomalies (Except.error e) = Except.error apiKeyMsg)
  ∧ (∀ e : Str, (occursIn tok403 e || occursIn tokApiKey e) = false →
      analyzeAnomalies (Except.error e) = Except.error (failedMsgPre ++ e))
  ∧ apiKeyMsg ≠ failedMsgPre ++ emptyRespMsg := by
  refine ⟨?_, ?_, ?_, ?_, ?_⟩
  · rfl
  · rfl
  · intro e he
    simp [analyzeAnomalies, wrapCatch, he]
  · intro e he
    simp [analyzeAnomalies, wrapCatch, he]
  · decide

/-- Witness for C8 at a concrete `403` transport error and a concrete
non-credential error. -/
theorem c8_empty_body_and_credential_errors_witness :
    analyzeAnomalies (Except.error "403 Forbidden".toList) = Except.error apiKeyMsg
  ∧ analyzeAnomalies (Except.error "timeout".toList)
      = Except.error (failedMsgPre ++ "timeout".toList) :=
  ⟨c8_empty_body_and_credential_errors.2.2.1 "403 Forbidden".toList (by decide),
   c8_empty_body_and_credential_errors.2.2.2.1 "timeout".toList (by decide)⟩

/-- C2 counterexample: a response carrying severity `"CRITICAL"` and a
non-string `summary` is accepted whole (`Except.ok`), not rejected:
the code performs no shape validation after `JSON.parse` — the
`as AnalysisResult` cast checks nothing at runtime. -/
theorem c2_no_validation_counterexample :
    analyzeAnomalies (Except.ok (some critRespText)) = Except.ok critRespVal := by
  with_unfolding_all rfl

/-- C2 (amended): the response pipeline performs no shape validation:
every response body whose fence-cleaned text parses as JSON is
returned whole, whatever its `severity` values or `summary` field;
only an empty body or unparseable text produces an error. -/
theorem c2_parse_is_only_gate (text : Str) (v : Json) (hne : text ≠ [])
    (hp : parseJson (cleanJsonString text) = some v) :
    analyzeAnomalies (Except.ok (some text)) = Except.ok v := by
  simp [analyzeAnomalies, hne, hp]

/-- Witness for C2's amended theorem: the summary-less response is
returned whole. -/
theorem c2_parse_is_only_gate_witness :
    analyzeAnomalies (Except.ok (some noSummaryText)) = Except.ok noSummaryVal :=
  c2_parse_is_only_gate noSummaryText noSummaryVal (by decide)
    (by with_unfolding_all rfl)
